import Mathlib

/-!
Verification of the continuous-learning pipeline of `ml_service/continuous_learning.py`
(Connect-Four-AI).  Each Python construct relevant to the claims is shallowly embedded:

* `collections.deque(maxlen=m)` becomes a `List` together with `dequePush`, which appends
  on the right and evicts from the left once the length would exceed `m`;
* Python floats that only ever feed exact comparisons are modelled as `ℚ`;
* the single genuinely floating-point computation the claims depend on,
  `int(batch_size * 0.7)` in `ExperienceBuffer.sample`, is modelled exactly:
  `double07` is the IEEE-754 binary64 value of the literal `0.7`
  (`3152519739159347 / 2^52`) and `roundToDouble` performs round-to-nearest, ties to
  even, on the binade grid, which is exactly what hardware multiplication does for
  these magnitudes (no overflow/underflow is reachable for the integer operand sizes
  involved);
* `np.random.choice` is abstracted by a `SampleOracle` supplying the chosen indices;
  the structural guarantees of numpy (result length, index range, distinctness when
  `replace=False`) become the `SampleOracle.Valid` hypothesis;
* PyTorch parameter storage is modelled by a small heap (`store : Nat → ℚ`) because
  `Module.state_dict()` returns tensors that alias the live parameter storage and
  `dict.copy()` is a shallow copy; `optimizer.step()` writes parameters in place and
  `load_state_dict` copies the given tensors' current values into the parameters.
-/

namespace ContinuousLearning

/-- Terminal outcome tag of a game / experience: the Python strings
`'win' | 'draw' | 'loss'`. -/
inductive Outcome where
  | win
  | draw
  | loss
deriving DecidableEq, Repr

/-- The loss-pattern descriptor attached to a lost game.  Only the `'type'` field is
consulted by the embedded code paths (`ExperienceBuffer.add`,
`_calculate_reward`); the remaining fields (critical positions, recorded mistakes)
never influence the claims and are omitted. -/
structure LossPattern where
  type : String
deriving DecidableEq, Repr

/-- The four keys of `ExperienceBuffer.pattern_buffers`. -/
inductive PatternKey where
  | horizontal
  | vertical
  | diagonal
  | antiDiagonal
deriving DecidableEq, Repr

/-- Membership test `pattern_type in self.pattern_buffers` from
`ExperienceBuffer.add`: the dict has exactly the four keys
`'horizontal' | 'vertical' | 'diagonal' | 'anti-diagonal'`. -/
def patternKeyOf (s : String) : Option PatternKey :=
  if s = "horizontal" then some .horizontal
  else if s = "vertical" then some .vertical
  else if s = "diagonal" then some .diagonal
  else if s = "anti-diagonal" then some .antiDiagonal
  else none

/-- An experience dict, restricted to the fields that `ExperienceBuffer.add` reads:
`'outcome'` and `'loss_pattern'` (present or absent).  `id` stands for the identity
of the dict object so that distinct experiences stay distinguishable. -/
structure Experience where
  id : Nat
  outcome : Outcome
  loss_pattern : Option LossPattern
deriving DecidableEq, Repr

instance : Inhabited Experience := ⟨⟨0, .draw, none⟩⟩

/-- `collections.deque(maxlen := m).append x`: append on the right; once the length
would exceed `m`, elements are discarded from the left.  `deque(maxlen=0)` stores
nothing, matching Python. -/
def dequePush (maxlen : Nat) (xs : List α) (x : α) : List α :=
  let ys := xs ++ [x]
  if maxlen < ys.length then ys.drop (ys.length - maxlen) else ys

theorem dequePush_length_le (maxlen : Nat) (xs : List α) (x : α) :
    (dequePush maxlen xs x).length ≤ maxlen ∨
      (dequePush maxlen xs x).length = xs.length + 1 := by
  unfold dequePush
  by_cases h : maxlen < (xs ++ [x]).length
  · left
    simp only [h, if_true, List.length_drop]
    omega
  · right
    simp only [h, if_false]
    simp

theorem dequePush_length_le_of_le (maxlen : Nat) (xs : List α) (x : α)
    (h : xs.length ≤ maxlen) : (dequePush maxlen xs x).length ≤ maxlen := by
  rcases dequePush_length_le maxlen xs x with h1 | h1
  · exact h1
  · unfold dequePush at *
    by_cases hc : maxlen < (xs ++ [x]).length
    · simp only [hc, if_true, List.length_drop] at h1 ⊢
      omega
    · simp only [hc, if_false] at h1 ⊢
      simp at hc ⊢
      omega

theorem mem_dequePush (maxlen : Nat) (xs : List α) (x : α) (y : α)
    (h : y ∈ dequePush maxlen xs x) : y ∈ xs ∨ y = x := by
  unfold dequePush at h
  by_cases hc : maxlen < (xs ++ [x]).length
  · simp only [hc, if_true] at h
    have hmem : y ∈ xs ++ [x] := List.mem_of_mem_drop h
    simpa using hmem
  · simp only [hc, if_false] at h
    simpa using h

theorem dequePush_eq_append (maxlen : Nat) (xs : List α) (x : α)
    (h : xs.length + 1 ≤ maxlen) : dequePush maxlen xs x = xs ++ [x] := by
  unfold dequePush
  have hlt : ¬ maxlen < (xs ++ [x]).length := by simp; omega
  simp only [hlt, if_false]

/-- `max(self.priorities)` when the deque is non-empty, `1.0` otherwise — the
priority default of `ExperienceBuffer.add`. -/
def maxListD (l : List ℚ) : ℚ :=
  match l with
  | [] => 1
  | x :: xs => xs.foldl max x

/-- State of `ExperienceBuffer`: the main bounded buffer, the lock-stepped priority
deque, and the four pattern buckets (each `deque(maxlen = capacity // 4)`).
`beta` is the prioritized-replay exponent (initially `0.4`). -/
structure ExperienceBuffer where
  capacity : Nat
  buffer : List Experience
  priorities : List ℚ
  horizontal : List Experience
  vertical : List Experience
  diagonal : List Experience
  antiDiagonal : List Experience
  beta : ℚ
deriving Repr

/-- `ExperienceBuffer.__init__(capacity)`. -/
def ExperienceBuffer.init (capacity : Nat) : ExperienceBuffer :=
  { capacity := capacity
    buffer := []
    priorities := []
    horizontal := []
    vertical := []
    diagonal := []
    antiDiagonal := []
    beta := 2/5 }

/-- Bucket selection helper: the list stored under a `PatternKey`. -/
def ExperienceBuffer.bucket (s : ExperienceBuffer) : PatternKey → List Experience
  | .horizontal => s.horizontal
  | .vertical => s.vertical
  | .diagonal => s.diagonal
  | .antiDiagonal => s.antiDiagonal

/-- `ExperienceBuffer.add(experience, priority=None)`: resolve the default priority,
append to the main buffer and priority deque, then — when the experience is a loss
carrying a recognised loss-pattern type — also append to that pattern's bucket. -/
def ExperienceBuffer.add (s : ExperienceBuffer) (e : Experience)
    (priority : Option ℚ) : ExperienceBuffer :=
  let p := priority.getD (maxListD s.priorities)
  let s1 := { s with
    buffer := dequePush s.capacity s.buffer e
    priorities := dequePush s.capacity s.priorities p }
  if e.outcome = .loss then
    match e.loss_pattern with
    | some lp =>
      match patternKeyOf lp.type with
      | some .horizontal =>
        { s1 with horizontal := dequePush (s.capacity / 4) s1.horizontal e }
      | some .vertical =>
        { s1 with vertical := dequePush (s.capacity / 4) s1.vertical e }
      | some .diagonal =>
        { s1 with diagonal := dequePush (s.capacity / 4) s1.diagonal e }
      | some .antiDiagonal =>
        { s1 with antiDiagonal := dequePush (s.capacity / 4) s1.antiDiagonal e }
      | none => s1
    | none => s1
  else s1

/-- A whole history of `add` calls, applied in order. -/
def ExperienceBuffer.applyAdds (s : ExperienceBuffer)
    (ops : List (Experience × Option ℚ)) : ExperienceBuffer :=
  ops.foldl (fun t op => t.add op.fst op.snd) s

/-! ### Exact model of `int(batch_size * 0.7)`

`ExperienceBuffer.sample` computes `pattern_size = int(batch_size * 0.7)` in IEEE-754
binary64 arithmetic.  The literal `0.7` denotes the double `3152519739159347 / 2^52`.
For `0 ≤ b < 2^53` the conversion of `b` to double is exact, so the product is the
exact rational `N / 2^52` with `N = 3152519739159347 * b`, rounded to the nearest
representable double (ties to even); `int(...)` then truncates toward zero.  The
functions below carry out exactly this rounding using only natural-number
arithmetic: with `L = ⌊log₂ N⌋`, the representable grid around the product has
spacing `2^(L - 104)` (53-bit significands), so the product is
`roundHalfEven (N·2^52 / 2^L) · 2^(L-104)`.  No overflow or subnormal is reachable
for these magnitudes. -/

/-- `⌊log₂ n⌋` for `n ≥ 1` (and `0` for `n ≤ 1`), via an explicit fuel so that the
kernel can evaluate it; fuel `128` is exact for every `n < 2^128`, far beyond the
`b < 2^53` range where the model is meaningful. -/
def floorLog2Aux : Nat → Nat → Nat
  | 0, _ => 0
  | fuel + 1, n => if n ≤ 1 then 0 else floorLog2Aux fuel (n / 2) + 1

def floorLog2 (n : Nat) : Nat := floorLog2Aux 128 n

/-- Round-to-nearest, ties-to-even of the exact rational `num / den`
(both positive), returned as a natural number. -/
def roundHalfEvenDiv (num den : Nat) : Nat :=
  let whole := num / den
  let rem := num % den
  if 2 * rem < den then whole
  else if den < 2 * rem then whole + 1
  else if whole % 2 = 0 then whole else whole + 1

/-- `int(b * 0.7)` in IEEE-754 binary64 arithmetic, for `0 ≤ b < 2^53`. -/
def intMul07 (b : Nat) : Nat :=
  let N := 3152519739159347 * b
  if N = 0 then 0
  else
    let L := floorLog2 N
    let M := roundHalfEvenDiv (N * 2 ^ 52) (2 ^ L)
    M * 2 ^ L / 2 ^ 104

/-! ### Sampling

`np.random.choice` is a random draw; it is abstracted by an oracle producing the
chosen indices.  `Valid` records the guarantees numpy provides at the call sites
the code reaches: `choice(n, k, replace=False)` (used with `k < n`) returns `k`
distinct indices below `n`; `choice(n, k, p=probs)` (used with `k ≤ n`) returns `k`
indices below `n` (with replacement, so no distinctness). -/
structure SampleOracle where
  pickNoReplace : Nat → Nat → List Nat
  pickWeighted : Nat → Nat → List Nat

def SampleOracle.Valid (o : SampleOracle) : Prop :=
  (∀ n k, k ≤ n →
      (o.pickNoReplace n k).length = k ∧ (o.pickNoReplace n k).Nodup ∧
        ∀ i ∈ o.pickNoReplace n k, i < n) ∧
  (∀ n k, k ≤ n →
      (o.pickWeighted n k).length = k ∧ ∀ i ∈ o.pickWeighted n k, i < n)

/-- A concrete valid oracle (always picks the first indices). -/
def frontOracle : SampleOracle :=
  { pickNoReplace := fun _ k => List.range k
    pickWeighted := fun _ k => List.range k }

theorem frontOracle_valid : frontOracle.Valid := by
  constructor
  · intro n k hk
    simp only [frontOracle]
    exact ⟨List.length_range k, List.nodup_range k,
      fun i hi => lt_of_lt_of_le (List.mem_range.mp hi) hk⟩
  · intro n k hk
    simp only [frontOracle]
    exact ⟨List.length_range k, fun i hi => lt_of_lt_of_le (List.mem_range.mp hi) hk⟩

/-- `ExperienceBuffer._sample_from_buffer(buffer, size)`: return the whole list when
it has at most `size` elements, otherwise `size` positions chosen without
replacement. -/
def sampleFromBuffer (o : SampleOracle) (buf : List Experience) (size : Nat) :
    List Experience :=
  if buf.length ≤ size then buf
  else (o.pickNoReplace buf.length size).map (fun i => buf.getD i default)

/-- `ExperienceBuffer._prioritized_sample(batch_size)`: return the whole buffer when
it is smaller than the request; otherwise draw `batch_size` indices with
probability proportional to `priority^beta` (the distribution lives in the oracle)
and advance `beta` by `beta_increment = 0.001`, capped at `1.0`.  Returns the batch
together with the updated buffer state. -/
def prioritizedSample (o : SampleOracle) (s : ExperienceBuffer) (batch_size : Nat) :
    List Experience × ExperienceBuffer :=
  if s.buffer.length < batch_size then (s.buffer, s)
  else
    let idxs := o.pickWeighted s.buffer.length batch_size
    (idxs.map (fun i => s.buffer.getD i default),
      { s with beta := min 1 (s.beta + 1/1000) })

/-- `ExperienceBuffer.sample(batch_size, pattern_focus=None)`: with a focus naming a
non-empty bucket, take `int(batch_size * 0.7)` items from the bucket and the
remainder from the prioritized main buffer, concatenated in that order; otherwise a
plain prioritized draw. -/
def ExperienceBuffer.sample (o : SampleOracle) (s : ExperienceBuffer)
    (batch_size : Nat) (pattern_focus : Option PatternKey) :
    List Experience × ExperienceBuffer :=
  match pattern_focus with
  | some k =>
    if s.bucket k ≠ [] then
      let pattern_size := intMul07 batch_size
      let general_size := batch_size - pattern_size
      let pattern_batch := sampleFromBuffer o (s.bucket k) pattern_size
      let general := prioritizedSample o s general_size
      (pattern_batch ++ general.fst, general.snd)
    else prioritizedSample o s batch_size
  | none => prioritizedSample o s batch_size

/-! ### Retrain scheduler -/

/-- `ContinuousLearningPipeline._should_update_model`.  Wall-clock instants are
modelled as seconds (`Nat`); `timedelta(minutes=5)` is `300` seconds, and
`self.metrics['last_update']` is `none` until the first committed update.
The three early-`False` returns of the source appear in the same order. -/
def shouldUpdateModel (buffer_len min_games games_processed update_frequency : Nat)
    (last_update : Option Nat) (now : Nat) : Bool :=
  if buffer_len < min_games then false
  else if games_processed % update_frequency ≠ 0 then false
  else
    match last_update with
    | some t => if now - t < 300 then false else true
    | none => true

/-! ### Validation gate -/

/-- A board is the Python `List[List[str]]` with cell strings
`'Empty' | 'Yellow' | 'Red'`. -/
def Board := List (List String)

/-- The canonical battery of `_test_basic_positions`: one position with an
immediate winning move for Yellow (the AI) and one position where Red threatens an
immediate win that must be blocked; both expect column `3`. -/
def basicTests : List (Board × Nat) :=
  [([List.replicate 7 "Empty",
     List.replicate 7 "Empty",
     List.replicate 7 "Empty",
     ["Empty", "Empty", "Empty", "Empty", "Empty", "Empty", "Empty"],
     ["Empty", "Empty", "Empty", "Empty", "Empty", "Empty", "Empty"],
     ["Yellow", "Yellow", "Yellow", "Empty", "Empty", "Empty", "Empty"]], 3),
   ([List.replicate 7 "Empty",
     List.replicate 7 "Empty",
     List.replicate 7 "Empty",
     ["Empty", "Empty", "Empty", "Empty", "Empty", "Empty", "Empty"],
     ["Empty", "Empty", "Empty", "Empty", "Empty", "Empty", "Empty"],
     ["Red", "Red", "Red", "Empty", "Empty", "Empty", "Empty"]], 3)]

/-- `ContinuousLearningPipeline._test_basic_positions`.  The network is opaque: it
enters as the function `predict` taking the board to the argmax column of the
model's output.  The score is the fraction of battery positions answered with the
expected move. -/
def testBasicPositions (predict : Board → Nat) : ℚ :=
  ((basicTests.countP (fun t => predict t.fst = t.snd) : ℚ)) / (basicTests.length : ℚ)

/-- The improvements map produced by `_fine_tune_model`, restricted to the entries
`_validate_improvement` reads.  Fields are `Option` because `_validate_improvement`
reads them with `dict.get(key, 0)`. -/
structure Improvements where
  overall_accuracy : Option ℚ
  horizontal_defense : Option ℚ
  vertical_defense : Option ℚ
  diagonal_defense : Option ℚ
deriving Repr

/-- `ContinuousLearningPipeline._validate_improvement`: reject when the aggregate
improvement is below `-0.1`; reject when the canonical-battery score is below
`validation_threshold`; the per-pattern defense checks below `0.3` only emit log
warnings and fall through to `return True`. -/
def validateImprovement (predict : Board → Nat) (improvements : Improvements)
    (validation_threshold : ℚ) : Bool :=
  if improvements.overall_accuracy.getD 0 < -(1/10) then false
  else if testBasicPositions predict < validation_threshold then false
  else true

/-! ### Training-example extraction and reward -/

/-- Game phases assigned by `_determine_game_phase`. -/
inductive GamePhase where
  | opening
  | middle
  | endgame
deriving DecidableEq, Repr

/-- `ContinuousLearningPipeline._determine_game_phase`.  In Python `total_moves - 10`
can be negative; truncated `Nat` subtraction yields the same branch because a
non-negative `move_num` is `<` a negative bound exactly when it is `< 0`. -/
def determineGamePhase (move_num total_moves : Nat) : GamePhase :=
  if move_num < 8 then .opening
  else if move_num < total_moves - 10 then .middle
  else .endgame

/-- One half-move of the inbound game-outcome record (§6 of the spec): actor tag,
boards before/after, chosen column, timestamp. -/
structure Move where
  playerId : String
  boardStateBefore : Option Board
  boardStateAfter : Option Board
  column : Nat
  timestamp : Nat

/-- The inbound `game_data` record as read by `_extract_training_examples`. -/
structure GameData where
  moves : List Move
  outcome : Outcome
  lossPattern : Option LossPattern

/-- A training example as built by `_extract_training_examples`, restricted to the
fields later code reads. -/
structure TrainingExample where
  board_before : Option Board
  board_after : Option Board
  action : Nat
  outcome : Outcome
  move_number : Nat
  total_moves : Nat
  game_phase : GamePhase
  timestamp : Nat
  loss_pattern : Option LossPattern

/-- The example built for the move at (0-based) index `i`. -/
def mkExample (g : GameData) (i : Nat) (m : Move) : TrainingExample :=
  { board_before := m.boardStateBefore
    board_after := m.boardStateAfter
    action := m.column
    outcome := g.outcome
    move_number := i
    total_moves := g.moves.length
    game_phase := determineGamePhase i g.moves.length
    timestamp := m.timestamp
    loss_pattern := if g.outcome = .loss then g.lossPattern else none }

/-- The `for i, move in enumerate(moves)` loop body of
`_extract_training_examples`: a move contributes an example exactly when its
`playerId` equals `'AI'`. -/
def extractAux (g : GameData) : Nat → List Move → List TrainingExample
  | _, [] => []
  | i, m :: ms =>
    (if m.playerId = "AI" then [mkExample g i m] else []) ++ extractAux g (i + 1) ms

/-- `ContinuousLearningPipeline._extract_training_examples`. -/
def extractTrainingExamples (g : GameData) : List TrainingExample :=
  extractAux g 0 g.moves

/-- Base reward +1 / 0 / −1 of `_calculate_reward`. -/
def baseReward : Outcome → ℚ
  | .win => 1
  | .draw => 0
  | .loss => -1

/-- `ContinuousLearningPipeline._calculate_reward`: scale the base reward by
`0.5 + 0.5 * (move_number + 1) / total_moves`, then double it when the example is a
loss **that carries a loss-pattern descriptor** and lies within the last 5 moves
(`move_number >= total_moves - 5`, rendered over `Nat` as
`total_moves ≤ move_number + 5`, equivalent over the integers). -/
def calculateReward (e : TrainingExample) : ℚ :=
  let reward := baseReward e.outcome *
    (1/2 + 1/2 * (((e.move_number : ℚ) + 1) / (e.total_moves : ℚ)))
  if e.outcome = .loss ∧ e.loss_pattern ≠ none ∧ e.total_moves ≤ e.move_number + 5 then
    reward * 2
  else reward

/-! ### Version manager: backup, rollback, update cycle

PyTorch semantics used by `_backup_current_model` / `_rollback_model`:

* `Module.state_dict()` returns a dict whose tensors **alias** the live parameter
  storage (documented PyTorch behaviour: the entries are references, not copies);
* `dict.copy()` (the `current_state.copy()` of `_backup_current_model`) is a
  shallow copy — a fresh dict with the **same tensor objects**;
* `optimizer.step()` (the Adam steps of `_fine_tune_model`) updates parameter
  tensors **in place**;
* `load_state_dict(sd)` copies the current values of the tensors in `sd` into the
  parameters (`param.copy_`).

This is modelled by a heap `store : Nat → ℚ` of tensor storages: the live model's
parameter tensors are the locations `paramLocs`; `state_dict` returns those
locations; a snapshot stores locations (not values); an in-place training step
overwrites the values at `paramLocs`; `load_state_dict` writes the value found at
each given location into the corresponding parameter location. -/

/-- The live model (`self.model_manager.models['standard']`): parameter tensors are
heap locations into a shared tensor store. -/
structure ModelManagerState where
  store : Nat → ℚ
  paramLocs : List Nat

/-- `Module.state_dict()`: references to the parameter storages. -/
def stateDict (m : ModelManagerState) : List Nat := m.paramLocs

/-- One entry of `self.model_history`.  `state_dict` holds the shallow-copied dict:
the same tensor references that `stateDict` returned (timestamp omitted). -/
structure Snapshot where
  version : Nat
  state_dict : List Nat

/-- Pipeline state relevant to versioning: the model heap, the version counter, the
bounded snapshot ring (maxlen 10), and the metrics touched by `update_model`. -/
structure PipelineState where
  mm : ModelManagerState
  model_version : Nat
  model_history : List Snapshot
  model_updates : Nat
  last_update : Option Nat

/-- `ContinuousLearningPipeline._backup_current_model`: push
`{'version': v, 'state_dict': state_dict().copy()}` onto the 10-deep ring. -/
def backupCurrentModel (p : PipelineState) : PipelineState :=
  { p with model_history :=
      dequePush 10 p.model_history ⟨p.model_version, stateDict p.mm⟩ }

/-- An in-place optimizer step: the parameter storages receive new values; every
other storage (in particular anything a snapshot might genuinely own) is
untouched. -/
def writeParams (m : ModelManagerState) (newVals : Nat → ℚ) : ModelManagerState :=
  { m with store := fun l => if l ∈ m.paramLocs then newVals l else m.store l }

/-- `Module.load_state_dict(refs)`: parameter `i` receives the current value stored
at `refs[i]`; all reads happen against the pre-call heap. -/
def loadStateDict (m : ModelManagerState) (refs : List Nat) : ModelManagerState :=
  { m with store := fun l =>
      match (m.paramLocs.zip refs).find? (fun pr => pr.fst = l) with
      | some pr => m.store pr.snd
      | none => m.store l }

/-- `ContinuousLearningPipeline._rollback_model`: load the most recently pushed
snapshot's `state_dict` into the live model (no-op when the ring is empty). -/
def rollbackModel (p : PipelineState) : PipelineState :=
  match p.model_history.getLast? with
  | none => p
  | some prev => { p with mm := loadStateDict p.mm prev.state_dict }

/-- `ContinuousLearningPipeline.update_model`: sample and data preparation do not
touch versioning state; then backup, train in place, validate, and either commit
(bump `model_updates`, `last_update`, `model_version`) or roll back.  Outcomes of
the non-deterministic/opaque steps enter as parameters: `raiseBeforeBackup` (an
exception in sampling/preparation), `raiseDuringTraining` (an exception in the
fine-tuning epochs — both land in the `except` handler, which rolls back), the
in-place `trainedVals`, and the validation verdict. -/
def updateModel (p : PipelineState) (now : Nat) (trainedVals : Nat → ℚ)
    (raiseBeforeBackup raiseDuringTraining validated : Bool) : PipelineState :=
  if raiseBeforeBackup then rollbackModel p
  else
    let p1 := backupCurrentModel p
    if raiseDuringTraining then rollbackModel p1
    else
      let p2 := { p1 with mm := writeParams p1.mm trainedVals }
      if validated then
        { p2 with
          model_updates := p2.model_updates + 1
          last_update := some now
          model_version := p2.model_version + 1 }
      else rollbackModel p2

/-! ### Status channel -/

/-- `ContinuousLearningPipeline._broadcast_update`: serialize once, attempt a send
to every connected client, collect the clients whose send raised
`ConnectionClosed` into `disconnected`, and finally drop exactly those.  The
subscriber set is modelled as a duplicate-free list; `fails c = true` means the
transport raises `ConnectionClosed` for client `c` on this call.  The returned pair
is (clients the message reached, surviving subscriber set); the function is total —
no exception propagates to the caller. -/
def broadcastUpdate (clients : List Nat) (fails : Nat → Bool) :
    List Nat × List Nat :=
  if clients = [] then ([], clients)
  else
    let delivered := clients.filter (fun c => ¬ fails c)
    let survivors := clients.filter (fun c => ¬ fails c)
    (delivered, survivors)

/-- A run of repeated `_broadcast_update` calls: `failsAt n c` says whether the
transport to client `c` raises on the `n`-th call (0-based). -/
def broadcastRun (clients : List Nat) (failsAt : Nat → Nat → Bool) : Nat → List Nat
  | 0 => clients
  | n + 1 => (broadcastUpdate (broadcastRun clients failsAt n) (failsAt n)).snd

/-! ## Helper lemmas about `ExperienceBuffer.add` -/

theorem add_capacity (s : ExperienceBuffer) (e : Experience) (p : Option ℚ) :
    (s.add e p).capacity = s.capacity := by
  unfold ExperienceBuffer.add
  repeat' split
  all_goals rfl

theorem add_buffer (s : ExperienceBuffer) (e : Experience) (p : Option ℚ) :
    (s.add e p).buffer = dequePush s.capacity s.buffer e := by
  unfold ExperienceBuffer.add
  repeat' split
  all_goals rfl

theorem add_bucket (s : ExperienceBuffer) (e : Experience) (p : Option ℚ)
    (k : PatternKey) :
    (s.add e p).bucket k = s.bucket k ∨
      ((s.add e p).bucket k = dequePush (s.capacity / 4) (s.bucket k) e ∧
        e.outcome = .loss ∧
        ∃ lp, e.loss_pattern = some lp ∧ patternKeyOf lp.type = some k) := by
  unfold ExperienceBuffer.add
  by_cases hloss : e.outcome = .loss
  · simp only [hloss, if_true]
    cases hlp : e.loss_pattern with
    | none => left; cases k <;> rfl
    | some lp =>
      cases hpk : patternKeyOf lp.type with
      | none => left; simp only [hpk]; cases k <;> rfl
      | some k' =>
        simp only [hpk]
        cases k' <;> cases k
        all_goals first
          | (left; rfl)
          | (right
             exact ⟨rfl, by simp [hloss], lp, rfl, by simp [hpk]⟩)
  · simp only [hloss, if_false]
    left; cases k <;> rfl

/-- Both `add` branches keep every bucket within `capacity / 4`, provided it was
within bound before. -/
theorem add_bucket_length (s : ExperienceBuffer) (e : Experience) (p : Option ℚ)
    (k : PatternKey) (h : (s.bucket k).length ≤ s.capacity / 4) :
    ((s.add e p).bucket k).length ≤ s.capacity / 4 := by
  rcases add_bucket s e p k with h1 | ⟨h1, _⟩ <;> rw [h1]
  · exact h
  · exact dequePush_length_le_of_le _ _ _ h

/-! ## C8: the memory never exceeds its configured bounds -/

/-- Size invariant carried through the induction for C8. -/
def SizeInv (s : ExperienceBuffer) : Prop :=
  s.buffer.length ≤ s.capacity ∧ ∀ k, (s.bucket k).length ≤ s.capacity / 4

theorem sizeInv_add (s : ExperienceBuffer) (e : Experience) (p : Option ℚ)
    (h : SizeInv s) : SizeInv (s.add e p) := by
  obtain ⟨hb, hk⟩ := h
  constructor
  · rw [add_buffer, add_capacity]
    exact dequePush_length_le_of_le _ _ _ hb
  · intro k
    rw [add_capacity]
    exact add_bucket_length s e p k (hk k)

theorem applyAdds_capacity (s : ExperienceBuffer)
    (ops : List (Experience × Option ℚ)) :
    (s.applyAdds ops).capacity = s.capacity := by
  induction ops generalizing s with
  | nil => rfl
  | cons op ops ih =>
    simpa [ExperienceBuffer.applyAdds, add_capacity] using
      (ih (s.add op.fst op.snd)).trans (add_capacity s op.fst op.snd)

theorem sizeInv_applyAdds (s : ExperienceBuffer)
    (ops : List (Experience × Option ℚ)) (h : SizeInv s) :
    SizeInv (s.applyAdds ops) := by
  induction ops generalizing s with
  | nil => exact h
  | cons op ops ih => exact ih (s.add op.fst op.snd) (sizeInv_add s op.fst op.snd h)

/-- **C8** (confirmed).  For every configured capacity `C` and every sequence of
`add` operations starting from `ExperienceBuffer.__init__(C)`, the main buffer
holds at most `C` experiences and each of the four pattern buckets holds at most
`C / 4` (Python `C // 4`) experiences. -/
theorem bufferNeverExceedsCapacity (C : Nat)
    (ops : List (Experience × Option ℚ)) :
    ((ExperienceBuffer.init C).applyAdds ops).buffer.length ≤ C ∧
      ∀ k, (((ExperienceBuffer.init C).applyAdds ops).bucket k).length ≤ C / 4 := by
  have hinit : SizeInv (ExperienceBuffer.init C) := by
    constructor
    · simp [ExperienceBuffer.init]
    · intro k; cases k <;> simp [ExperienceBuffer.init, ExperienceBuffer.bucket]
  have h := sizeInv_applyAdds (ExperienceBuffer.init C) ops hinit
  have hcap := applyAdds_capacity (ExperienceBuffer.init C) ops
  obtain ⟨hb, hk⟩ := h
  rw [hcap] at hb hk
  exact ⟨hb, hk⟩

/-! ## C2: pattern-bucket membership -/

/-- The dict key under which each bucket is stored. -/
def keyName : PatternKey → String
  | .horizontal => "horizontal"
  | .vertical => "vertical"
  | .diagonal => "diagonal"
  | .antiDiagonal => "anti-diagonal"

theorem patternKeyOf_eq_some {t : String} {k : PatternKey}
    (h : patternKeyOf t = some k) : t = keyName k := by
  unfold patternKeyOf at h
  split_ifs at h <;> simp_all [keyName] <;> (subst h; rfl)

/-- Purity invariant: every bucket member is a loss carrying that bucket's pattern
type. -/
def BucketPure (s : ExperienceBuffer) : Prop :=
  ∀ k, ∀ e ∈ s.bucket k,
    e.outcome = .loss ∧ ∃ lp, e.loss_pattern = some lp ∧ patternKeyOf lp.type = some k

theorem bucketPure_add (s : ExperienceBuffer) (e : Experience) (p : Option ℚ)
    (h : BucketPure s) : BucketPure (s.add e p) := by
  intro k e' he'
  rcases add_bucket s e p k with h1 | ⟨h1, hloss, lp, hlp, hpk⟩
  · rw [h1] at he'
    exact h k e' he'
  · rw [h1] at he'
    rcases mem_dequePush _ _ _ _ he' with hmem | rfl
    · exact h k e' hmem
    · exact ⟨hloss, lp, hlp, hpk⟩

theorem bucketPure_applyAdds (s : ExperienceBuffer)
    (ops : List (Experience × Option ℚ)) (h : BucketPure s) :
    BucketPure (s.applyAdds ops) := by
  induction ops generalizing s with
  | nil => exact h
  | cons op ops ih => exact ih (s.add op.fst op.snd) (bucketPure_add s op.fst op.snd h)

/-- While the main buffer has spare room for the whole history, buckets stay inside
it: the subset direction of the claim holds until the first eviction. -/
theorem bucket_subset_applyAdds (ops : List (Experience × Option ℚ)) :
    ∀ s : ExperienceBuffer, (∀ k, ∀ e ∈ s.bucket k, e ∈ s.buffer) →
      s.buffer.length + ops.length ≤ s.capacity →
      ∀ k, ∀ e ∈ (s.applyAdds ops).bucket k, e ∈ (s.applyAdds ops).buffer := by
  induction ops with
  | nil => intro s hsub _; exact hsub
  | cons op ops ih =>
    intro s hsub hlen
    have hfit : s.buffer.length + 1 ≤ s.capacity := by
      simp only [List.length_cons] at hlen
      omega
    have hbuf : (s.add op.fst op.snd).buffer = s.buffer ++ [op.fst] := by
      rw [add_buffer]
      exact dequePush_eq_append s.capacity s.buffer op.fst hfit
    have hsub' : ∀ k, ∀ e ∈ (s.add op.fst op.snd).bucket k,
        e ∈ (s.add op.fst op.snd).buffer := by
      intro k e he
      rw [hbuf]
      rcases add_bucket s op.fst op.snd k with h1 | ⟨h1, _⟩ <;> rw [h1] at he
      · exact List.mem_append_left _ (hsub k e he)
      · rcases mem_dequePush _ _ _ _ he with hmem | rfl
        · exact List.mem_append_left _ (hsub k e hmem)
        · exact List.mem_append_right _ (List.mem_singleton_self _)
    have hlen' : (s.add op.fst op.snd).buffer.length + ops.length ≤
        (s.add op.fst op.snd).capacity := by
      rw [hbuf, add_capacity, List.length_append]
      simp only [List.length_cons] at hlen
      simp only [List.length_singleton]
      omega
    exact ih (s.add op.fst op.snd) hsub' hlen'

/-- **C2** (amended part, proved).  After every sequence of `add` operations, every
member of a pattern bucket is a loss experience carrying precisely that bucket's
pattern type; and as long as the history still fits into the configured capacity
(so the main buffer has never evicted), every bucket member is also in the main
buffer.  (The unconditional subset property of the original claim is refuted by
`patternBucketNotSubsetAfterEviction` below.) -/
theorem patternBucketsTypePureAndSubset (C : Nat)
    (ops : List (Experience × Option ℚ)) :
    (∀ k, ∀ e ∈ ((ExperienceBuffer.init C).applyAdds ops).bucket k,
        e.outcome = .loss ∧ ∃ lp, e.loss_pattern = some lp ∧ lp.type = keyName k) ∧
      (ops.length ≤ C →
        ∀ k, ∀ e ∈ ((ExperienceBuffer.init C).applyAdds ops).bucket k,
          e ∈ ((ExperienceBuffer.init C).applyAdds ops).buffer) := by
  constructor
  · have hinit : BucketPure (ExperienceBuffer.init C) := by
      intro k e he
      cases k <;> simp [ExperienceBuffer.init, ExperienceBuffer.bucket] at he
    have h := bucketPure_applyAdds (ExperienceBuffer.init C) ops hinit
    intro k e he
    obtain ⟨hloss, lp, hlp, hpk⟩ := h k e he
    exact ⟨hloss, lp, hlp, patternKeyOf_eq_some hpk⟩
  · intro hle
    apply bucket_subset_applyAdds
    · intro k e he
      cases k <;> simp [ExperienceBuffer.init, ExperienceBuffer.bucket] at he
    · simpa [ExperienceBuffer.init] using hle

/-- The horizontal-loss experience used in the C2 refutation and witness. -/
def eH : Experience := ⟨0, .loss, some ⟨"horizontal"⟩⟩

/-- Four non-loss filler experiences. -/
def eDraw (n : Nat) : Experience := ⟨n, .draw, none⟩

/-- The add history refuting the subset claim: one horizontal loss followed by four
non-loss games, with `capacity = 4`. -/
def cexOps : List (Experience × Option ℚ) :=
  [(eH, some 1), (eDraw 1, some 1), (eDraw 2, some 1), (eDraw 3, some 1),
    (eDraw 4, some 1)]

/-- **C2** (counterexample).  With capacity 4, adding one horizontal-loss
experience and then four further games evicts the loss from the main buffer while
the horizontal bucket (maxlen `4 // 4 = 1`) still holds it: bucket membership is
not a subset of main-buffer membership. -/
theorem patternBucketNotSubsetAfterEviction :
    eH ∈ ((ExperienceBuffer.init 4).applyAdds cexOps).horizontal ∧
      eH ∉ ((ExperienceBuffer.init 4).applyAdds cexOps).buffer := by
  decide

/-- Witness for `patternBucketsTypePureAndSubset`: with capacity 4 and the single-
element history `[eH]`, both hypotheses are dischargeable and the bucket member is
found in the main buffer. -/
theorem patternBucketsTypePureAndSubset_witness :
    eH ∈ ((ExperienceBuffer.init 4).applyAdds [(eH, some 1)]).buffer := by
  have h := patternBucketsTypePureAndSubset 4 [(eH, some 1)]
  exact h.2 (by decide) .horizontal eH (by decide)

/-! ## C3: pattern-focused sampling -/

theorem sampleFromBuffer_length (o : SampleOracle) (hv : o.Valid)
    (buf : List Experience) (size : Nat) :
    (sampleFromBuffer o buf size).length = min buf.length size := by
  unfold sampleFromBuffer
  by_cases hle : buf.length ≤ size
  · rw [if_pos hle, min_eq_left hle]
  · rw [if_neg hle, List.length_map]
    have hlt : size < buf.length := lt_of_not_le hle
    rw [(hv.1 buf.length size (le_of_lt hlt)).1, min_eq_right (le_of_lt hlt)]

theorem sampleFromBuffer_subset (o : SampleOracle) (hv : o.Valid)
    (buf : List Experience) (size : Nat) :
    ∀ e ∈ sampleFromBuffer o buf size, e ∈ buf := by
  unfold sampleFromBuffer
  by_cases hle : buf.length ≤ size
  · rw [if_pos hle]
    exact fun e he => he
  · rw [if_neg hle]
    intro e he
    obtain ⟨i, hi, rfl⟩ := List.mem_map.mp he
    have hlt : size < buf.length := lt_of_not_le hle
    have hin : i < buf.length := (hv.1 buf.length size (le_of_lt hlt)).2.2 i hi
    rw [List.getD_eq_getElem buf default hin]
    exact List.getElem_mem hin

theorem prioritizedSample_length (o : SampleOracle) (hv : o.Valid)
    (s : ExperienceBuffer) (batch_size : Nat) :
    (prioritizedSample o s batch_size).fst.length = min s.buffer.length batch_size := by
  unfold prioritizedSample
  by_cases hlt : s.buffer.length < batch_size
  · rw [if_pos hlt]
    exact (min_eq_left (le_of_lt hlt)).symm
  · rw [if_neg hlt]
    simp only [List.length_map]
    rw [(hv.2 s.buffer.length batch_size (not_lt.mp hlt)).1,
      min_eq_right (not_lt.mp hlt)]

/-- **C3** (amended, proved).  With a `pattern_focus` naming a non-empty bucket,
`sample(batchSize, patternFocus)` returns the bucket draw followed by the
prioritized draw; the bucket draw takes `int(batchSize * 0.7)` — the IEEE-754
**truncation** of `0.7 × batchSize`, not its ceiling — items, capped at the bucket
size, every one of them a bucket member (without replacement, via
`np.random.choice(..., replace=False)`); the prioritized remainder takes
`batchSize - int(batchSize * 0.7)` items from the main buffer (or the whole buffer
when it is smaller).  For `batchSize = 10` the product `10 * 0.7` is exactly `7.0`,
so the bucket contributes `min(bucketSize, 7)` items, which is the ≥7 of the
spec's scenario whenever the bucket holds at least 7. -/
theorem sampleWithPatternFocus (o : SampleOracle) (hv : o.Valid)
    (s : ExperienceBuffer) (b : Nat) (k : PatternKey) (hne : s.bucket k ≠ []) :
    (ExperienceBuffer.sample o s b (some k)).fst
        = sampleFromBuffer o (s.bucket k) (intMul07 b)
          ++ (prioritizedSample o s (b - intMul07 b)).fst ∧
      (sampleFromBuffer o (s.bucket k) (intMul07 b)).length
        = min (s.bucket k).length (intMul07 b) ∧
      (∀ e ∈ sampleFromBuffer o (s.bucket k) (intMul07 b), e ∈ s.bucket k) ∧
      (prioritizedSample o s (b - intMul07 b)).fst.length
        = min s.buffer.length (b - intMul07 b) ∧
      intMul07 10 = 7 := by
  refine ⟨?_, sampleFromBuffer_length o hv _ _, sampleFromBuffer_subset o hv _ _,
    prioritizedSample_length o hv _ _, by decide⟩
  simp only [ExperienceBuffer.sample, if_pos hne]

/-- The buffer state used for the C3 witness and counterexample: ten horizontal-loss
experiences added to a capacity-100 memory (bucket maxlen `100 // 4 = 25`). -/
def s10 : ExperienceBuffer :=
  (ExperienceBuffer.init 100).applyAdds
    ((List.range 10).map fun n => (⟨n, .loss, some ⟨"horizontal"⟩⟩, some 1))

/-- **C3** (counterexample).  At `batchSize = 5` against a 10-element horizontal
bucket, the code draws `int(5 * 0.7) = int(3.5) = 3` items from the bucket, while
the claim's `ceil(0.7 × 5) = 4` (capped at the bucket size, `min(10, 4) = 4`)
demands 4. -/
theorem sampleFocusNotCeil :
    (sampleFromBuffer frontOracle (s10.bucket .horizontal) (intMul07 5)).length = 3 ∧
      min (s10.bucket .horizontal).length ((7 * 5 + 9) / 10) = 4 ∧
      (ExperienceBuffer.sample frontOracle s10 5 (some .horizontal)).fst
        = sampleFromBuffer frontOracle (s10.bucket .horizontal) (intMul07 5)
          ++ (prioritizedSample frontOracle s10 (5 - intMul07 5)).fst ∧
      (3 : Nat) ≠ 4 := by
  decide

/-- Witness for `sampleWithPatternFocus` at `batchSize = 10` on a 10-element
horizontal bucket. -/
theorem sampleWithPatternFocus_witness :
    (sampleFromBuffer frontOracle (s10.bucket .horizontal) (intMul07 10)).length
      = min (s10.bucket .horizontal).length (intMul07 10) := by
  have h := sampleWithPatternFocus frontOracle frontOracle_valid s10 10 .horizontal
    (by decide)
  exact h.2.1

/-! ## C4: the retraining gate -/

/-- **C4** (confirmed).  `_should_update_model()` is true exactly when all three
gating conditions hold — buffer size ≥ `min_games_for_update`, games-processed
counter divisible by `update_frequency`, and either no successful commit yet
(`last_update` unset) or at least 5 minutes (300 s) elapsed since it — hence false
whenever any single condition fails; and with an empty memory and
`min_games_for_update = 50` it is false regardless of the games-processed counter
(and of everything else).  The hypothesis `0 < update_frequency` marks Python's
domain: `% 0` raises `ZeroDivisionError` there. -/
theorem shouldUpdateIffAllConditions :
    (∀ buffer_len min_games games_processed update_frequency
        (last_update : Option Nat) (now : Nat), 0 < update_frequency →
        (shouldUpdateModel buffer_len min_games games_processed update_frequency
            last_update now = true ↔
          (min_games ≤ buffer_len ∧ games_processed % update_frequency = 0 ∧
            (last_update = none ∨ ∃ t, last_update = some t ∧ 300 ≤ now - t)))) ∧
      (∀ games_processed update_frequency (last_update : Option Nat) (now : Nat),
        shouldUpdateModel 0 50 games_processed update_frequency last_update now
          = false) := by
  constructor
  · intro bl mg gp uf lu now _
    unfold shouldUpdateModel
    by_cases h1 : bl < mg
    · rw [if_pos h1]
      simp only [Bool.false_eq_true, false_iff]
      rintro ⟨hmg, -⟩
      omega
    · rw [if_neg h1]
      by_cases h2 : gp % uf ≠ 0
      · rw [if_pos h2]
        simp only [Bool.false_eq_true, false_iff]
        rintro ⟨-, hmod, -⟩
        exact h2 hmod
      · rw [if_neg h2]
        push_neg at h2
        cases lu with
        | none =>
          constructor
          · intro _
            exact ⟨not_lt.mp h1, h2, Or.inl rfl⟩
          · intro _
            rfl
        | some t =>
          dsimp only
          by_cases h3 : now - t < 300
          · rw [if_pos h3]
            simp only [Bool.false_eq_true, false_iff]
            rintro ⟨-, -, h4 | ⟨t', ht', helapsed⟩⟩
            · exact Option.noConfusion h4
            · injection ht' with ht'
              omega
          · rw [if_neg h3]
            constructor
            · intro _
              exact ⟨not_lt.mp h1, h2, Or.inr ⟨t, rfl, not_lt.mp h3⟩⟩
            · intro _
              rfl
  · intro gp uf lu now
    simp [shouldUpdateModel]

/-- Witness for `shouldUpdateIffAllConditions`: a state meeting all three
conditions (50 buffered games, counter 100 with frequency 100, no prior update)
makes the gate fire. -/
theorem shouldUpdateIffAllConditions_witness :
    shouldUpdateModel 50 50 100 100 none 0 = true := by
  exact (shouldUpdateIffAllConditions.1 50 50 100 100 none 0 (by decide)).mpr
    ⟨by decide, by decide, Or.inl rfl⟩

/-! ## C5: the validation gate -/

/-- **C5** (confirmed).  `_validate_improvement` rejects exactly when the aggregate
improvement (`improvements.get('overall_accuracy', 0)`) is below −0.1 or the
canonical-battery accuracy — two positions: take the immediate win, block the
opponent's immediate win — is below `validation_threshold` (configured default
0.95); the right-hand side mentions no per-pattern defense score, so defenses
below 0.3 (which the source only logs) can never cause rejection. -/
theorem validationRejectsIff (predict : Board → Nat) (improvements : Improvements)
    (validation_threshold : ℚ) :
    validateImprovement predict improvements validation_threshold = false ↔
      (improvements.overall_accuracy.getD 0 < -(1/10) ∨
        testBasicPositions predict < validation_threshold) := by
  unfold validateImprovement
  by_cases h1 : improvements.overall_accuracy.getD 0 < -(1/10)
  · rw [if_pos h1]
    exact ⟨fun _ => Or.inl h1, fun _ => rfl⟩
  · rw [if_neg h1]
    by_cases h2 : testBasicPositions predict < validation_threshold
    · rw [if_pos h2]
      exact ⟨fun _ => Or.inr h2, fun _ => rfl⟩
    · rw [if_neg h2]
      constructor
      · intro hc
        exact absurd hc (by simp)
      · rintro (hc | hc)
        · exact absurd hc h1
        · exact absurd hc h2

/-! ## C6: broadcast fault isolation -/

/-- **C6** (confirmed).  A broadcast attempts a send to every subscriber; the
message reaches exactly those whose transport did not raise `ConnectionClosed`, and
exactly the raising subscribers are removed afterwards — a failure neither blocks
delivery to the others (every non-failing subscriber is in the delivered list) nor
escapes to the caller (`broadcastUpdate` is a total function; the only exception
the loop can see is caught).  The spec's 11-call scenario: one subscriber whose
transport raises on the 5th call (index 4) survives the first 4 calls, is removed
by call 5, and calls 6–11 run to completion on the emptied subscriber set. -/
theorem broadcastFaultIsolation :
    (∀ (clients : List Nat) (fails : Nat → Bool),
        (broadcastUpdate clients fails).fst = clients.filter (fun c => ¬ fails c) ∧
          (broadcastUpdate clients fails).snd
            = clients.filter (fun c => ¬ fails c)) ∧
      broadcastRun [7] (fun n _ => n == 4) 4 = [7] ∧
      broadcastRun [7] (fun n _ => n == 4) 5 = [] ∧
      broadcastRun [7] (fun n _ => n == 4) 11 = [] := by
  refine ⟨?_, by decide, by decide, by decide⟩
  intro clients fails
  unfold broadcastUpdate
  by_cases h : clients = []
  · subst h
    simp
  · rw [if_neg h]
    exact ⟨rfl, rfl⟩

/-! ## C7: reward computation -/

/-- **C7** (amended, proved).  The reward is the base reward (+1 win / 0 draw / −1
loss) times the position factor `0.5 + 0.5 * (move_number + 1) / total_moves`, and
is doubled exactly when the example is a loss **carrying a loss-pattern
descriptor** within the last 5 moves (`move_number ≥ total_moves − 5`); a loss
example without a descriptor is never doubled, which is the correction to the
claim. -/
theorem rewardFormula (e : TrainingExample) (_ht : 0 < e.total_moves) :
    calculateReward e =
      baseReward e.outcome *
          (1/2 + 1/2 * (((e.move_number : ℚ) + 1) / (e.total_moves : ℚ))) *
        (if e.outcome = .loss ∧ e.loss_pattern ≠ none ∧
            e.total_moves ≤ e.move_number + 5 then 2 else 1) := by
  unfold calculateReward
  by_cases h : e.outcome = .loss ∧ e.loss_pattern ≠ none ∧
      e.total_moves ≤ e.move_number + 5
  · rw [if_pos h, if_pos h]
  · rw [if_neg h, if_neg h]
    ring

/-- A loss in the last 5 moves *with* a loss-pattern descriptor (doubled). -/
def exLast5 : TrainingExample :=
  ⟨none, none, 3, .loss, 9, 10, .endgame, 0, some ⟨"horizontal"⟩⟩

/-- A loss in the last 5 moves *without* a loss-pattern descriptor (not doubled). -/
def exNoDescriptor : TrainingExample :=
  ⟨none, none, 3, .loss, 9, 10, .endgame, 0, none⟩

/-- Witness for `rewardFormula`: the descriptor-carrying last-5 loss evaluates to
`(-1) * (0.5 + 0.5 * (10/10)) * 2 = -2`. -/
theorem rewardFormula_witness : calculateReward exLast5 = -2 := by
  rw [rewardFormula exLast5 (by decide)]
  rw [if_pos (⟨rfl, by simp [exLast5], by decide⟩ :
    exLast5.outcome = .loss ∧ exLast5.loss_pattern ≠ none ∧
      exLast5.total_moves ≤ exLast5.move_number + 5)]
  norm_num [exLast5, baseReward]

/-- **C7** (counterexample).  At `move_number = 9` of `total_moves = 10`, a loss
example with no loss-pattern descriptor gets reward −1, while the claim's formula
(doubling every last-5 loss) demands −2. -/
theorem rewardNotDoubledWithoutDescriptor :
    calculateReward exNoDescriptor = -1 ∧
      baseReward .loss * (1/2 + 1/2 * (((9 : ℚ) + 1) / (10 : ℚ))) * 2 = -2 ∧
      (-1 : ℚ) ≠ -2 := by
  have hb : baseReward .loss = -1 := rfl
  refine ⟨?_, by rw [hb]; norm_num, by norm_num⟩
  simp only [calculateReward, exNoDescriptor]
  norm_num
  exact hb

/-! ## C10: only AI half-moves yield training examples -/

theorem extractAux_length (g : GameData) (ms : List Move) : ∀ i,
    (extractAux g i ms).length
      = (ms.filter (fun m => m.playerId = "AI")).length := by
  induction ms with
  | nil => intro i; rfl
  | cons m ms ih =>
    intro i
    unfold extractAux
    by_cases h : m.playerId = "AI"
    · simp [h, ih]
    · simp [h, ih]

theorem extractAux_mem (g : GameData) (ms : List Move) : ∀ i,
    ∀ ex ∈ extractAux g i ms,
      ∃ m ∈ ms, m.playerId = "AI" ∧ ex.action = m.column ∧
        ex.timestamp = m.timestamp := by
  induction ms with
  | nil =>
    intro i ex hex
    simp [extractAux] at hex
  | cons m ms ih =>
    intro i ex hex
    unfold extractAux at hex
    by_cases h : m.playerId = "AI"
    · rw [if_pos h] at hex
      rcases List.mem_append.mp hex with h1 | h2
      · rcases List.mem_singleton.mp h1 with rfl
        exact ⟨m, List.mem_cons_self m ms, h, rfl, rfl⟩
      · obtain ⟨m', hm', rest⟩ := ih (i + 1) ex h2
        exact ⟨m', List.mem_cons_of_mem _ hm', rest⟩
    · rw [if_neg h] at hex
      simp only [List.nil_append] at hex
      obtain ⟨m', hm', rest⟩ := ih (i + 1) ex hex
      exact ⟨m', List.mem_cons_of_mem _ hm', rest⟩

/-- **C10** (confirmed).  `_extract_training_examples` converts exactly the
half-moves whose `playerId` is `'AI'`: there are as many examples as AI moves,
every example originates in an AI move, a game with no AI move yields no example,
and feeding those (zero) examples into the experience memory leaves it
unchanged. -/
theorem onlyAIMovesExtracted (g : GameData) :
    (extractTrainingExamples g).length
        = (g.moves.filter (fun m => m.playerId = "AI")).length ∧
      (∀ ex ∈ extractTrainingExamples g,
        ∃ m ∈ g.moves, m.playerId = "AI" ∧ ex.action = m.column ∧
          ex.timestamp = m.timestamp) ∧
      ((∀ m ∈ g.moves, ¬ m.playerId = "AI") → extractTrainingExamples g = []) ∧
      ((∀ m ∈ g.moves, ¬ m.playerId = "AI") →
        ∀ (s : ExperienceBuffer) (f : TrainingExample → Experience × Option ℚ),
          s.applyAdds ((extractTrainingExamples g).map f) = s) := by
  have hlen := extractAux_length g g.moves 0
  have hnil : (∀ m ∈ g.moves, ¬ m.playerId = "AI") → extractTrainingExamples g = [] := by
    intro hno
    have hfilter : g.moves.filter (fun m => m.playerId = "AI") = [] := by
      rw [List.filter_eq_nil_iff]
      intro m hm
      simpa using hno m hm
    have : (extractTrainingExamples g).length = 0 := by
      rw [extractTrainingExamples, hlen, hfilter]
      rfl
    exact List.length_eq_zero.mp this
  refine ⟨hlen, extractAux_mem g g.moves 0, hnil, ?_⟩
  intro hno s f
  rw [hnil hno]
  rfl

/-- A game record containing no AI half-move. -/
def gNoAI : GameData := ⟨[⟨"human", none, none, 0, 0⟩], .win, none⟩

/-- Witness for `onlyAIMovesExtracted`: the all-human game yields no training
example. -/
theorem onlyAIMovesExtracted_witness : extractTrainingExamples gNoAI = [] := by
  exact (onlyAIMovesExtracted gNoAI).2.2.1 (by decide)

/-! ## C9: the version counter -/

/-- **C9** (confirmed).  Across an `update_model` cycle the version counter bumps by
exactly 1 when the attempt commits (no exception and validation accepted), and is
untouched on every other path — validation rejection, exception before the backup,
exception during training: `_rollback_model` and `_backup_current_model` never
write `model_version`. -/
theorem versionBumpsOnlyOnCommit (p : PipelineState) (now : Nat)
    (trainedVals : Nat → ℚ) (rb rt validated : Bool) :
    ((rb = false ∧ rt = false ∧ validated = true) →
        (updateModel p now trainedVals rb rt validated).model_version
          = p.model_version + 1) ∧
      (¬ (rb = false ∧ rt = false ∧ validated = true) →
        (updateModel p now trainedVals rb rt validated).model_version
          = p.model_version) := by
  have hroll : ∀ q : PipelineState, (rollbackModel q).model_version = q.model_version := by
    intro q
    unfold rollbackModel
    cases q.model_history.getLast? <;> rfl
  constructor
  · rintro ⟨hrb, hrt, hv⟩
    subst hrb; subst hrt; subst hv
    rfl
  · intro hnc
    unfold updateModel
    cases rb with
    | true => exact hroll p
    | false =>
      cases rt with
      | true =>
        simp only [Bool.false_eq_true, if_false, if_true]
        exact hroll _
      | false =>
        cases validated with
        | true => exact absurd ⟨rfl, rfl, rfl⟩ hnc
        | false =>
          simp only [Bool.false_eq_true, if_false]
          exact hroll _

/-- Witness for `versionBumpsOnlyOnCommit`: a concrete accepted attempt bumps the
version from 1 to 2, via the theorem's commit branch. -/
theorem versionBumpsOnlyOnCommit_witness :
    (updateModel ⟨⟨fun _ => 0, [0]⟩, 1, [], 0, none⟩ 0 (fun _ => 1)
        false false true).model_version = 2 := by
  exact (versionBumpsOnlyOnCommit ⟨⟨fun _ => 0, [0]⟩, 1, [], 0, none⟩ 0 (fun _ => 1)
    false false true).1 ⟨rfl, rfl, rfl⟩

/-! ## C1: rollback does not restore the backed-up values -/

/-- The initial pipeline state of the C1 scenario: a single-parameter model whose
parameter tensor lives at heap location 0 and currently holds `0`; version 1, empty
snapshot ring. -/
def p0 : PipelineState := ⟨⟨fun _ => 0, [0]⟩, 1, [], 0, none⟩

/-- **C1** (code bug, evaluated at the failing input).  Scenario: `backup()` runs
(`state_dict().copy()` — a shallow dict copy whose tensor still aliases the live
parameter), training then updates the parameter in place from `0` to `1`, and
validation rejects, so `_rollback_model` loads the snapshot.  Because the
snapshot's tensor is the live parameter's own storage, the "restored" value is the
post-training `1`, not the `0` that was live when the backup was pushed: the live
parameters after rollback are **not** bit-identical to the snapshot taken before
training.  (`p1` is the state right after backup; its live parameter value is `0`.) -/
theorem rollbackKeepsTrainedParams :
    (backupCurrentModel p0).mm.store 0 = 0 ∧
      (rollbackModel
          { backupCurrentModel p0 with
            mm := writeParams (backupCurrentModel p0).mm fun _ => 1 }).mm.store 0
        = 1 ∧
      (1 : ℚ) ≠ 0 := by
  refine ⟨rfl, ?_, one_ne_zero⟩
  rfl

end ContinuousLearning
